import Mathlib

/-!
Verification of the GRE question extraction pipeline
(`extract_gre_questions.py`) against its natural-language specification.

The Python source is shallowly embedded: strings are modelled as
`List Char` (the ASCII fragment of Python unicode strings), dictionaries
as ordered association lists with Python insertion-order update
semantics, the filesystem as a list of paths, and the network as an
oracle assigning an outcome to every attempt index.  Every definition is
translated from the corresponding function of the source file.
-/

/-! ## Character-level models of the Python primitives used by the source -/

/-- Characters matched by the Python regex class backslash-w over the
character fragment this development exercises: ASCII letters, digits and
the underscore, together with the code point 304, the Latin capital
letter I with dot above, which is a Unicode uppercase letter and hence a
word character in CPython.  The combining dot above, code point 775,
produced by lowercasing that letter is a combining mark, not
alphanumeric, and hence not a word character. -/
def isPyWordChar (c : Char) : Bool :=
  (65 ≤ c.toNat && c.toNat ≤ 90) || (97 ≤ c.toNat && c.toNat ≤ 122) ||
  (48 ≤ c.toNat && c.toNat ≤ 57) || c.toNat == 95 || c.toNat == 304

/-- Characters matched by the Python regex class backslash-s and split
by the argument-free Python `str.split`, over the ASCII range:
space, tab, newline, carriage return, vertical tab, form feed. -/
def isPySpace (c : Char) : Bool :=
  c.toNat == 32 || c.toNat == 9 || c.toNat == 10 ||
  c.toNat == 13 || c.toNat == 11 || c.toNat == 12

/-- The single-character ASCII branch of Python `str.lower`: uppercase
ASCII letters shift to lowercase, everything else is unchanged.  The
full per-character lowercase mapping of the development, including the
expanding case mapping of the code point 304, is `pyLowerChar`. -/
def asciiLowerChar (c : Char) : Char :=
  if 65 ≤ c.toNat && c.toNat ≤ 90 then Char.ofNat (c.toNat + 32) else c

/-- Model of Python `str.lower` on one input character, over the
character fragment this development exercises: ASCII uppercase letters
shift to lowercase; the code point 304, the Latin capital letter I with
dot above, expands to the small letter i followed by the combining dot
above, code point 775, exactly as in CPython; every other character of
the fragment is unchanged. -/
def pyLowerChar (c : Char) : List Char :=
  if 65 ≤ c.toNat && c.toNat ≤ 90 then [Char.ofNat (c.toNat + 32)]
  else if c.toNat == 304 then ['i', Char.ofNat 775]
  else [c]

/-- Model of Python `str.lower` on a whole string: concatenate the
per-character lowercase images.  Lowercasing can lengthen a string when
an expanding case mapping occurs. -/
def pyLower : List Char → List Char
  | [] => []
  | c :: rest => pyLowerChar c ++ pyLower rest

/-- Characters that can appear in the output of `sanitize_filename`:
lowercase letters, digits and the underscore. -/
def isSanitizedChar (c : Char) : Bool :=
  (97 ≤ c.toNat && c.toNat ≤ 122) || (48 ≤ c.toNat && c.toNat ≤ 57) ||
  c.toNat == 95

theorem char_toNat_ofNat_valid (n : Nat) (h : n < 55296) :
    (Char.ofNat n).toNat = n := by
  have hv : n.isValidChar := Or.inl h
  simp only [Char.ofNat, hv, dif_pos, Char.ofNatAux, Char.toNat]
  simp [UInt32.toNat]

theorem char_toNat_inj {a b : Char} (h : a.toNat = b.toNat) : a = b := by
  apply Char.eq_of_val_eq
  exact UInt32.toNat.inj h

/-! ## Model of `sanitize_filename` (source lines 890 to 906)

The Python function, for a nonempty string input:
takes the first 8 whitespace-separated words, joins them with
underscores, deletes every character that is not a word character,
whitespace or hyphen, replaces every run of hyphens and whitespace by a
single underscore, truncates to 100 characters, strips leading and
trailing underscores, lowercases, and falls back to the literal
"question" when the result is empty. -/

/-- Model of the argument-free Python `str.split`: cut at runs of
whitespace, discarding empty pieces.  The accumulator holds the current
word reversed. -/
def pySplitAux (cur : List Char) : List Char → List (List Char)
  | [] => if cur.isEmpty then [] else [cur.reverse]
  | c :: rest =>
    if isPySpace c then
      if cur.isEmpty then pySplitAux [] rest
      else cur.reverse :: pySplitAux [] rest
    else pySplitAux (c :: cur) rest

def pySplit (l : List Char) : List (List Char) := pySplitAux [] l

/-- Model of `re.sub` with pattern `[-\s]+` and replacement underscore:
every maximal run of hyphens and whitespace becomes one underscore.
The flag records whether the previous character belonged to a run. -/
def collapseRunsAux (inRun : Bool) : List Char → List Char
  | [] => []
  | c :: rest =>
    if c == '-' || isPySpace c then
      if inRun then collapseRunsAux true rest
      else '_' :: collapseRunsAux true rest
    else c :: collapseRunsAux false rest

/-- Model of Python `str.strip` with a single-character argument:
remove every occurrence of that character from both ends. -/
def pyStripChar (u : Char) (l : List Char) : List Char :=
  (((l.dropWhile (· == u)).reverse.dropWhile (· == u))).reverse

/-- The body of `sanitize_filename` after the input guard: the sequence
of transformations the source applies to a nonempty string. -/
def sanitizePipeline (l : List Char) : List Char :=
  let words := (pySplit l).take 8
  let joined := List.intercalate ['_'] words
  let kept := joined.filter (fun c => isPyWordChar c || isPySpace c || c == '-')
  let collapsed := collapseRunsAux false kept
  let truncated := collapsed.take 100
  pyLower (pyStripChar '_' truncated)

/-- Model of `sanitize_filename` on an actual string argument.  The
guard `if not text` sends the empty string to the fallback, and the
final guard sends an empty pipeline result to the fallback. -/
def sanitize_filename (text : String) : String :=
  if text.data.isEmpty then "question"
  else if (sanitizePipeline text.data).isEmpty then "question"
  else String.mk (sanitizePipeline text.data)

/-- Python values that can reach `sanitize_filename` through its
dynamically typed parameter: `None`, a string, or any non-string
object. -/
inductive PyVal where
  | pynone
  | pystr (s : String)
  | pyother
deriving DecidableEq

/-- Model of `sanitize_filename` over arbitrary Python input: the guard
`if not text or not isinstance(text, str)` returns the fallback for
`None` and for every non-string object. -/
def sanitize_filename_any : PyVal → String
  | .pynone => "question"
  | .pyother => "question"
  | .pystr s => sanitize_filename s

/-! ## Character-level lemmas for the sanitizer -/

theorem sanitized_of_word {c : Char} (h : isPyWordChar c = true)
    (ha : c.toNat < 128) : isSanitizedChar (asciiLowerChar c) = true := by
  simp only [isPyWordChar, Bool.or_eq_true, Bool.and_eq_true, decide_eq_true_eq,
    beq_iff_eq] at h
  unfold asciiLowerChar
  by_cases hu : (65 ≤ c.toNat && c.toNat ≤ 90) = true
  · rw [if_pos hu]
    simp only [Bool.and_eq_true, decide_eq_true_eq] at hu
    have hv : c.toNat + 32 < 55296 := by omega
    simp only [isSanitizedChar, char_toNat_ofNat_valid _ hv, Bool.or_eq_true,
      Bool.and_eq_true, decide_eq_true_eq, beq_iff_eq]
    omega
  · rw [if_neg hu]
    simp only [Bool.and_eq_true, decide_eq_true_eq, not_and, not_le] at hu
    simp only [isSanitizedChar, Bool.or_eq_true, Bool.and_eq_true, decide_eq_true_eq,
      beq_iff_eq]
    omega

theorem asciiLowerChar_sanitized {c : Char} (h : isSanitizedChar c = true) :
    asciiLowerChar c = c := by
  simp only [isSanitizedChar, Bool.or_eq_true, Bool.and_eq_true, decide_eq_true_eq,
    beq_iff_eq] at h
  unfold asciiLowerChar
  rw [if_neg]
  simp only [Bool.and_eq_true, decide_eq_true_eq, not_and, not_le]
  omega

theorem sanitized_not_space {c : Char} (h : isSanitizedChar c = true) :
    isPySpace c = false := by
  simp only [isSanitizedChar, Bool.or_eq_true, Bool.and_eq_true, decide_eq_true_eq,
    beq_iff_eq] at h
  simp only [isPySpace, Bool.or_eq_false_iff, beq_eq_false_iff_ne, ne_eq]
  omega

theorem sanitized_word {c : Char} (h : isSanitizedChar c = true) :
    isPyWordChar c = true := by
  simp only [isSanitizedChar, Bool.or_eq_true, Bool.and_eq_true, decide_eq_true_eq,
    beq_iff_eq] at h
  simp only [isPyWordChar, Bool.or_eq_true, Bool.and_eq_true, decide_eq_true_eq,
    beq_iff_eq]
  omega

theorem sanitized_not_run {c : Char} (h : isSanitizedChar c = true) :
    (c == '-' || isPySpace c) = false := by
  simp only [isSanitizedChar, Bool.or_eq_true, Bool.and_eq_true, decide_eq_true_eq,
    beq_iff_eq] at h
  simp only [Bool.or_eq_false_iff, beq_eq_false_iff_ne, ne_eq]
  constructor
  · intro hc
    subst hc
    simp at h
  · simp only [isPySpace, Bool.or_eq_false_iff, beq_eq_false_iff_ne, ne_eq]
    omega

theorem asciiLowerChar_underscore_iff (c : Char) :
    (asciiLowerChar c == '_') = (c == '_') := by
  by_cases hc : c = '_'
  · subst hc; rfl
  · have h2 : asciiLowerChar c ≠ '_' := by
      unfold asciiLowerChar
      by_cases hu : (65 ≤ c.toNat && c.toNat ≤ 90) = true
      · rw [if_pos hu]
        simp only [Bool.and_eq_true, decide_eq_true_eq] at hu
        intro he
        have h1 := congrArg Char.toNat he
        rw [char_toNat_ofNat_valid _ (by omega)] at h1
        have h2 : ('_' : Char).toNat = 95 := rfl
        omega
      · rw [if_neg hu]; exact hc
    simp [hc, h2]

theorem sanitized_ascii {c : Char} (h : isSanitizedChar c = true) :
    c.toNat < 128 := by
  simp only [isSanitizedChar, Bool.or_eq_true, Bool.and_eq_true, decide_eq_true_eq,
    beq_iff_eq] at h
  omega

theorem pyLowerChar_ascii {c : Char} (h : c.toNat < 128) :
    pyLowerChar c = [asciiLowerChar c] := by
  unfold pyLowerChar asciiLowerChar
  by_cases hu : (65 ≤ c.toNat && c.toNat ≤ 90) = true
  · rw [if_pos hu, if_pos hu]
  · rw [if_neg hu, if_neg hu, if_neg]
    simp only [beq_iff_eq]
    omega

theorem pyLowerChar_sanitized {c : Char} (h : isSanitizedChar c = true) :
    pyLowerChar c = [c] := by
  rw [pyLowerChar_ascii (sanitized_ascii h), asciiLowerChar_sanitized h]

theorem mem_pyLower :
    ∀ (l : List Char) (c : Char), c ∈ pyLower l → ∃ d ∈ l, c ∈ pyLowerChar d := by
  intro l
  induction l with
  | nil => intro c hc; simp [pyLower] at hc
  | cons d rest ih =>
    intro c hc
    simp only [pyLower, List.mem_append] at hc
    rcases hc with h | h
    · exact ⟨d, List.mem_cons_self _ _, h⟩
    · obtain ⟨e, he, hce⟩ := ih c h
      exact ⟨e, List.mem_cons_of_mem _ he, hce⟩

theorem pyLower_eq_map_of_ascii :
    ∀ l : List Char, (∀ c ∈ l, c.toNat < 128) →
      pyLower l = l.map asciiLowerChar := by
  intro l
  induction l with
  | nil => intro _; rfl
  | cons d rest ih =>
    intro h
    simp only [pyLower, List.map_cons]
    rw [pyLowerChar_ascii (h d (List.mem_cons_self _ _)),
      ih (fun c hc => h c (List.mem_cons_of_mem _ hc))]
    rfl

theorem pyLower_id_of_sanitized :
    ∀ l : List Char, (∀ c ∈ l, isSanitizedChar c = true) → pyLower l = l := by
  intro l
  induction l with
  | nil => intro _; rfl
  | cons d rest ih =>
    intro h
    simp only [pyLower]
    rw [pyLowerChar_sanitized (h d (List.mem_cons_self _ _)),
      ih (fun c hc => h c (List.mem_cons_of_mem _ hc))]
    rfl

/-! ## List-level lemmas for the sanitizer -/

theorem collapseRunsAux_mem {c : Char} (l : List Char) :
    ∀ (b : Bool), c ∈ collapseRunsAux b l →
      c = '_' ∨ (c ∈ l ∧ (c == '-' || isPySpace c) = false) := by
  induction l with
  | nil => intro b h; simp [collapseRunsAux] at h
  | cons d rest ih =>
    intro b h
    simp only [collapseRunsAux] at h
    by_cases hd : (d == '-' || isPySpace d) = true
    · rw [if_pos hd] at h
      by_cases hb : b
      · rw [if_pos hb] at h
        rcases ih true h with h1 | ⟨h2, h3⟩
        · exact Or.inl h1
        · exact Or.inr ⟨List.mem_cons_of_mem _ h2, h3⟩
      · rw [if_neg hb] at h
        rcases List.mem_cons.mp h with h1 | h1
        · exact Or.inl h1
        · rcases ih true h1 with h2 | ⟨h3, h4⟩
          · exact Or.inl h2
          · exact Or.inr ⟨List.mem_cons_of_mem _ h3, h4⟩
    · rw [if_neg hd] at h
      rcases List.mem_cons.mp h with h1 | h1
      · subst h1
        exact Or.inr ⟨List.mem_cons_self _ _, by simpa using hd⟩
      · rcases ih false h1 with h2 | ⟨h3, h4⟩
        · exact Or.inl h2
        · exact Or.inr ⟨List.mem_cons_of_mem _ h3, h4⟩

theorem pyStripChar_subset (u : Char) (m : List Char) :
    pyStripChar u m ⊆ m := by
  intro c hc
  unfold pyStripChar at hc
  rw [List.mem_reverse] at hc
  have hc2 := List.dropWhile_subset _ hc
  rw [List.mem_reverse] at hc2
  exact List.dropWhile_subset _ hc2

theorem pySplitAux_chars :
    ∀ (l cur w : List Char), w ∈ pySplitAux cur l → ∀ c ∈ w, c ∈ cur ∨ c ∈ l := by
  intro l
  induction l with
  | nil =>
    intro cur w hw c hc
    simp only [pySplitAux] at hw
    by_cases hce : cur.isEmpty
    · rw [if_pos hce] at hw
      simp at hw
    · rw [if_neg hce] at hw
      simp only [List.mem_singleton] at hw
      subst hw
      exact Or.inl (List.mem_reverse.mp hc)
  | cons d rest ih =>
    intro cur w hw c hc
    simp only [pySplitAux] at hw
    by_cases hsp : isPySpace d = true
    · rw [if_pos hsp] at hw
      by_cases hce : cur.isEmpty
      · rw [if_pos hce] at hw
        rcases ih [] w hw c hc with h | h
        · simp at h
        · exact Or.inr (List.mem_cons_of_mem _ h)
      · rw [if_neg hce] at hw
        rcases List.mem_cons.mp hw with h | h
        · subst h
          exact Or.inl (List.mem_reverse.mp hc)
        · rcases ih [] w h c hc with h2 | h2
          · simp at h2
          · exact Or.inr (List.mem_cons_of_mem _ h2)
    · rw [if_neg hsp] at hw
      rcases ih (d :: cur) w hw c hc with h | h
      · rcases List.mem_cons.mp h with h2 | h2
        · subst h2
          exact Or.inr (List.mem_cons_self _ _)
        · exact Or.inl h2
      · exact Or.inr (List.mem_cons_of_mem _ h)

theorem mem_intersperse_underscore :
    ∀ (ws : List (List Char)) (w : List Char),
      w ∈ List.intersperse ['_'] ws → w = ['_'] ∨ w ∈ ws := by
  intro ws
  induction ws with
  | nil => intro w hw; simp at hw
  | cons x rest ih =>
    intro w hw
    cases rest with
    | nil =>
      simp only [List.intersperse_single] at hw
      exact Or.inr hw
    | cons y zs =>
      rw [List.intersperse_cons₂] at hw
      rcases List.mem_cons.mp hw with h | h
      · subst h
        exact Or.inr (List.mem_cons_self _ _)
      · rcases List.mem_cons.mp h with h2 | h2
        · exact Or.inl h2
        · rcases ih w h2 with h3 | h3
          · exact Or.inl h3
          · exact Or.inr (List.mem_cons_of_mem _ h3)

theorem intercalate_chars (ws : List (List Char)) (c : Char)
    (h : c ∈ List.intercalate ['_'] ws) : c = '_' ∨ ∃ w ∈ ws, c ∈ w := by
  unfold List.intercalate at h
  rw [List.mem_flatten] at h
  obtain ⟨piece, hp, hcp⟩ := h
  rcases mem_intersperse_underscore ws piece hp with h1 | h1
  · subst h1
    simp only [List.mem_singleton] at hcp
    exact Or.inl hcp
  · exact Or.inr ⟨piece, h1, hcp⟩

theorem collapsed_chars_of_ascii (l : List Char)
    (hascii : ∀ c ∈ l, c.toNat < 128) :
    ∀ d ∈ collapseRunsAux false
        ((List.intercalate ['_'] ((pySplit l).take 8)).filter
          (fun c => isPyWordChar c || isPySpace c || c == '-')),
      isPyWordChar d = true ∧ d.toNat < 128 := by
  intro d hd
  rcases collapseRunsAux_mem _ _ hd with h1 | ⟨h4, h5⟩
  · subst h1
    exact ⟨by decide, by decide⟩
  · rw [List.mem_filter] at h4
    obtain ⟨hmem, hkeep⟩ := h4
    rcases Bool.or_eq_false_iff.mp h5 with ⟨hdash, hspace⟩
    have hword : isPyWordChar d = true := by
      simpa [hdash, hspace] using hkeep
    refine ⟨hword, ?_⟩
    rcases intercalate_chars _ _ hmem with h6 | ⟨w, hw, hcw⟩
    · subst h6
      decide
    · have hw2 := List.take_subset _ _ hw
      rcases pySplitAux_chars l [] w hw2 d hcw with h7 | h7
      · simp at h7
      · exact hascii d h7

theorem sanitizePipeline_chars (l : List Char)
    (hascii : ∀ c ∈ l, c.toNat < 128) :
    ∀ c ∈ sanitizePipeline l, isSanitizedChar c = true := by
  intro c hc
  simp only [sanitizePipeline] at hc
  obtain ⟨d, hd, hcd⟩ := mem_pyLower _ _ hc
  have hd2 := pyStripChar_subset _ _ hd
  have hd3 := List.take_subset _ _ hd2
  obtain ⟨hword, hdascii⟩ := collapsed_chars_of_ascii l hascii d hd3
  rw [pyLowerChar_ascii hdascii] at hcd
  simp only [List.mem_singleton] at hcd
  subst hcd
  exact sanitized_of_word hword hdascii

theorem pySplitAux_no_space (l : List Char) (h : ∀ c ∈ l, isPySpace c = false) :
    ∀ cur : List Char, pySplitAux cur l =
      if (cur.reverse ++ l).isEmpty then [] else [cur.reverse ++ l] := by
  induction l with
  | nil =>
    intro cur
    simp [pySplitAux, List.isEmpty_iff]
  | cons c rest ih =>
    intro cur
    have hc : isPySpace c = false := h c (List.mem_cons_self _ _)
    simp only [pySplitAux, hc, Bool.false_eq_true, if_false]
    rw [ih (fun d hd => h d (List.mem_cons_of_mem _ hd)) (c :: cur)]
    simp [List.isEmpty_iff]

theorem collapseRunsAux_id (l : List Char)
    (h : ∀ c ∈ l, (c == '-' || isPySpace c) = false) :
    collapseRunsAux false l = l := by
  induction l with
  | nil => rfl
  | cons c rest ih =>
    have hc := h c (List.mem_cons_self _ _)
    simp only [collapseRunsAux, hc, Bool.false_eq_true, if_false]
    rw [ih (fun d hd => h d (List.mem_cons_of_mem _ hd))]

theorem head_false_of_dropWhile {p : Char → Bool} :
    ∀ (l : List Char) {a : Char} {t : List Char},
      l.dropWhile p = a :: t → p a = false := by
  intro l
  induction l with
  | nil => intro a t h; simp at h
  | cons c rest ih =>
    intro a t h
    by_cases hc : p c = true
    · rw [List.dropWhile_cons_of_pos hc] at h
      exact ih h
    · rw [List.dropWhile_cons_of_neg hc] at h
      cases h
      simpa using hc

theorem dropWhile_cons_false {p : Char → Bool} {a : Char} {t : List Char}
    (h : p a = false) : (a :: t).dropWhile p = a :: t := by
  simp [List.dropWhile_cons, h]

theorem dropWhile_idem (p : Char → Bool) (l : List Char) :
    (l.dropWhile p).dropWhile p = l.dropWhile p := by
  cases hm : l.dropWhile p with
  | nil => rfl
  | cons a t => exact dropWhile_cons_false (head_false_of_dropWhile l hm)

theorem getLast?_dropWhile (p : Char → Bool) :
    ∀ (l : List Char), l.dropWhile p ≠ [] → (l.dropWhile p).getLast? = l.getLast? := by
  intro l
  induction l with
  | nil => intro h; simp at h
  | cons c rest ih =>
    intro h
    by_cases hc : p c = true
    · rw [List.dropWhile_cons_of_pos hc] at h ⊢
      have hrest : rest ≠ [] := by
        intro he; subst he; simp at h
      rw [ih h]
      cases rest with
      | nil => exact absurd rfl hrest
      | cons d t => simp
    · rw [List.dropWhile_cons_of_neg hc]

theorem head?_ne_of_pyStripChar (u : Char) (l : List Char) (a : Char)
    (h : (pyStripChar u l).head? = some a) : (a == u) = false := by
  unfold pyStripChar at h
  rw [List.head?_reverse] at h
  have hne : (l.dropWhile (· == u)).reverse.dropWhile (· == u) ≠ [] := by
    intro he; rw [he] at h; simp at h
  rw [getLast?_dropWhile _ _ hne, List.getLast?_reverse] at h
  cases hd : l.dropWhile (· == u) with
  | nil => rw [hd] at h; simp at h
  | cons b s =>
    rw [hd] at h
    simp only [List.head?_cons, Option.some.injEq] at h
    subst h
    exact head_false_of_dropWhile (p := fun c => c == u) l hd

theorem dropWhile_eq_self_of_stripped (u : Char) (l : List Char) :
    (pyStripChar u l).dropWhile (· == u) = pyStripChar u l := by
  cases hs : pyStripChar u l with
  | nil => rfl
  | cons a t =>
    apply dropWhile_cons_false
    exact head?_ne_of_pyStripChar u l a (by rw [hs]; rfl)

theorem pyStripChar_idem (u : Char) (l : List Char) :
    pyStripChar u (pyStripChar u l) = pyStripChar u l := by
  set s := pyStripChar u l with hs
  have h2 : s.reverse = (l.dropWhile (· == u)).reverse.dropWhile (· == u) := by
    rw [hs]
    unfold pyStripChar
    rw [List.reverse_reverse]
  show pyStripChar u s = s
  unfold pyStripChar
  rw [dropWhile_eq_self_of_stripped u l, h2, dropWhile_idem, ← h2,
    List.reverse_reverse]

theorem pyStripChar_map (u : Char) (f : Char → Char)
    (hf : ∀ c, (f c == u) = (c == u)) (l : List Char) :
    pyStripChar u (l.map f) = (pyStripChar u l).map f := by
  have hfe : (fun c => c == u) ∘ f = fun c => c == u := by
    funext c; exact hf c
  unfold pyStripChar
  rw [List.dropWhile_map, hfe, ← List.map_reverse, List.dropWhile_map, hfe,
    ← List.map_reverse]

theorem pyStripChar_length_le (u : Char) (l : List Char) :
    (pyStripChar u l).length ≤ l.length := by
  unfold pyStripChar
  rw [List.length_reverse]
  calc ((l.dropWhile (· == u)).reverse.dropWhile (· == u)).length
      ≤ (l.dropWhile (· == u)).reverse.length :=
        (List.dropWhile_sublist _).length_le
    _ = (l.dropWhile (· == u)).length := List.length_reverse _
    _ ≤ l.length := (List.dropWhile_sublist _).length_le

theorem pyStrip_map_fixed (t : List Char) :
    pyStripChar '_' ((pyStripChar '_' t).map asciiLowerChar)
      = (pyStripChar '_' t).map asciiLowerChar := by
  rw [pyStripChar_map _ _ asciiLowerChar_underscore_iff, pyStripChar_idem]

theorem sanitizePipeline_eq_map (l : List Char)
    (hascii : ∀ c ∈ l, c.toNat < 128) :
    sanitizePipeline l
      = (pyStripChar '_' ((collapseRunsAux false
          ((List.intercalate ['_'] ((pySplit l).take 8)).filter
            (fun c => isPyWordChar c || isPySpace c || c == '-'))).take 100)).map
          asciiLowerChar := by
  have hm : ∀ d ∈ pyStripChar '_' ((collapseRunsAux false
      ((List.intercalate ['_'] ((pySplit l).take 8)).filter
        (fun c => isPyWordChar c || isPySpace c || c == '-'))).take 100),
      d.toNat < 128 := by
    intro d hd
    have hd2 := pyStripChar_subset _ _ hd
    have hd3 := List.take_subset _ _ hd2
    exact (collapsed_chars_of_ascii l hascii d hd3).2
  exact pyLower_eq_map_of_ascii _ hm

theorem sanitizePipeline_idem (l : List Char)
    (hascii : ∀ c ∈ l, c.toNat < 128) :
    sanitizePipeline (sanitizePipeline l) = sanitizePipeline l := by
  have hchars := sanitizePipeline_chars l hascii
  set r := sanitizePipeline l with hr
  by_cases hre : r = []
  · rw [hre]
    rfl
  · have hr_map : r = (pyStripChar '_' ((collapseRunsAux false
        ((List.intercalate ['_'] ((pySplit l).take 8)).filter
          (fun c => isPyWordChar c || isPySpace c || c == '-'))).take 100)).map
        asciiLowerChar := hr.trans (sanitizePipeline_eq_map l hascii)
    have hnospace : ∀ c ∈ r, isPySpace c = false :=
      fun c hc => sanitized_not_space (hchars c hc)
    have hnorun : ∀ c ∈ r, (c == '-' || isPySpace c) = false :=
      fun c hc => sanitized_not_run (hchars c hc)
    have hkeep : ∀ c ∈ r, (isPyWordChar c || isPySpace c || c == '-') = true := by
      intro c hc
      simp [sanitized_word (hchars c hc)]
    have hlen : r.length ≤ 100 := by
      rw [hr_map, List.length_map]
      exact le_trans (pyStripChar_length_le _ _) (List.length_take_le _ _)
    have hsplit : pySplit r = [r] := by
      unfold pySplit
      rw [pySplitAux_no_space r hnospace []]
      simp [List.isEmpty_iff, hre]
    have hstrip : pyStripChar '_' r = r := by
      rw [hr_map]
      exact pyStrip_map_fixed _
    have htake8 : ([r] : List (List Char)).take 8 = [r] := rfl
    have hint : List.intercalate ['_'] [r] = r := by
      simp [List.intercalate]
    simp only [sanitizePipeline]
    rw [hsplit, htake8, hint, List.filter_eq_self.mpr hkeep,
      collapseRunsAux_id r hnorun, List.take_of_length_le hlen, hstrip]
    exact pyLower_id_of_sanitized r hchars

/-- Claim C7 counterexample: sanitization is not idempotent on the
one-character string holding the Latin capital letter I with dot above.
The first pass keeps it as a word character and lowercasing expands it
to the small letter i followed by the combining dot above; the second
pass strips the combining dot above as a non-word character, leaving the
bare letter i, exactly as CPython does. -/
theorem C7_counterexample :
    sanitize_filename (sanitize_filename "İ") ≠ sanitize_filename "İ" ∧
    sanitize_filename "İ" = String.mk ['i', Char.ofNat 775] ∧
    sanitize_filename (sanitize_filename "İ") = "i" :=
  ⟨by decide, by decide, by decide⟩

/-- Claim C7 amended: filename sanitization is idempotent on every
string of ASCII characters; for strings containing a character with an
expanding lowercase mapping, such as the Latin capital letter I with dot
above, a second sanitization can strip the combining mark the first one
produced, so full idempotence fails. -/
theorem C7_sanitize_filename_idempotent_ascii (s : String)
    (h : ∀ c ∈ s.data, c.toNat < 128) :
    sanitize_filename (sanitize_filename s) = sanitize_filename s := by
  by_cases h0 : s.data.isEmpty
  · have h1 : sanitize_filename s = "question" := by
      unfold sanitize_filename
      rw [if_pos h0]
    rw [h1]
    decide
  · by_cases h2 : (sanitizePipeline s.data).isEmpty
    · have h1 : sanitize_filename s = "question" := by
        unfold sanitize_filename
        rw [if_neg h0, if_pos h2]
      rw [h1]
      decide
    · have h1 : sanitize_filename s = String.mk (sanitizePipeline s.data) := by
        unfold sanitize_filename
        rw [if_neg h0, if_neg h2]
      rw [h1]
      unfold sanitize_filename
      have hd : (String.mk (sanitizePipeline s.data)).data = sanitizePipeline s.data := rfl
      rw [hd, sanitizePipeline_idem s.data h, if_neg h2, if_neg h2]

/-- Witness for the amended C7: a concrete ASCII string with punctuation,
whitespace and mixed case sanitizes to the same name twice. -/
theorem C7_sanitize_filename_idempotent_ascii_witness :
    (∀ c ∈ "Hello, World!".data, c.toNat < 128) ∧
    sanitize_filename (sanitize_filename "Hello, World!")
      = sanitize_filename "Hello, World!" :=
  ⟨by decide, C7_sanitize_filename_idempotent_ascii "Hello, World!" (by decide)⟩

/-- Claim C10: sanitize_filename is total over arbitrary Python input and
never returns an empty name: None and non-string inputs yield the literal
fallback, and any string whose sanitized form would be empty also yields
the fallback. -/
theorem C10_sanitize_filename_total :
    sanitize_filename_any PyVal.pynone = "question" ∧
    sanitize_filename_any PyVal.pyother = "question" ∧
    (∀ s : String, sanitize_filename s ≠ "") ∧
    (∀ s : String, sanitizePipeline s.data = [] → sanitize_filename s = "question") := by
  refine ⟨rfl, rfl, ?_, ?_⟩
  · intro s
    unfold sanitize_filename
    by_cases h0 : s.data.isEmpty
    · rw [if_pos h0]; decide
    · rw [if_neg h0]
      by_cases h2 : (sanitizePipeline s.data).isEmpty
      · rw [if_pos h2]; decide
      · rw [if_neg h2]
        intro he
        apply h2
        have : (String.mk (sanitizePipeline s.data)).data = ("" : String).data := by
          rw [he]
        simpa [List.isEmpty_iff] using this
  · intro s h
    unfold sanitize_filename
    by_cases h0 : s.data.isEmpty
    · rw [if_pos h0]
    · rw [if_neg h0, if_pos (by simp [List.isEmpty_iff, h])]

/-- Witness for C10: the string of three exclamation marks contains no word
characters, its pipeline result is empty, and the function returns the
fallback name. -/
theorem C10_sanitize_filename_total_witness :
    sanitizePipeline "!!!".data = [] ∧ sanitize_filename "!!!" = "question" :=
  ⟨by decide, C10_sanitize_filename_total.2.2.2 "!!!" (by decide)⟩

/-! ## Model of `_extract_answer_choices` (source lines 764 to 783)

The source tries the lettered regex over the element text first and the
numbered regex only when the lettered one produced no matches.  The two
findall calls are modelled by explicit scanners that reproduce the lazy
content groups: after a choice marker, greedy whitespace skipping, then
the shortest nonempty run of characters ending where the next marker
starts or at the end of the text; when everything after the marker is
whitespace, backtracking leaves the final whitespace character as the
content, and a marker with nothing after it does not match at all. -/

/-- Letters accepted by the lettered choice pattern: A to E, a to e. -/
def isChoiceLetter (c : Char) : Bool :=
  (65 ≤ c.toNat && c.toNat ≤ 69) || (97 ≤ c.toNat && c.toNat ≤ 101)

/-- Opening parenthesis class of the lettered pattern: ASCII or fullwidth. -/
def isOpenParen (c : Char) : Bool := c == '(' || c == '（'

/-- Closing parenthesis class of the lettered pattern: ASCII or fullwidth. -/
def isCloseParen (c : Char) : Bool := c == ')' || c == '）'

/-- Lookahead of the lettered pattern: does a parenthesised choice letter
start here. -/
def isLetteredMarkerStart : List Char → Bool
  | o :: x :: cl :: _ => isOpenParen o && isChoiceLetter x && isCloseParen cl
  | _ => false

/-- Lookahead of the numbered pattern: one or more digits followed by a
period or closing parenthesis. -/
def isNumberedMarkerStart : List Char → Bool
  | d :: p :: rest =>
    d.isDigit && (p == '.' || p == ')' || (p.isDigit && isNumberedMarkerStart (p :: rest)))
  | _ => false

/-- Lazy content consumption: extend the accumulated content one
character at a time until the stop lookahead matches or the text ends. -/
def takeLazyAux (stop : List Char → Bool) (acc : List Char) :
    List Char → List Char × List Char
  | [] => (acc.reverse, [])
  | c :: rest =>
    if stop (c :: rest) then (acc.reverse, c :: rest)
    else takeLazyAux stop (c :: acc) rest

/-- The whitespace-then-lazy-content tail shared by both choice patterns:
greedy whitespace skip, then at least one content character up to the
stop lookahead; on all-whitespace input backtracking yields the final
whitespace character as content, and on empty input there is no match. -/
def lazyContentAfter (stop : List Char → Bool) (rest : List Char) :
    Option (List Char × List Char) :=
  match rest.dropWhile isPySpace with
  | c :: cs => some (takeLazyAux stop [c] cs)
  | [] =>
    match rest.reverse with
    | [] => none
    | w :: _ => some ([w], [])

/-- Attempt the lettered pattern at the head of the text, producing the
captured letter, the content group, and the unscanned remainder. -/
def tryLetteredMatch : List Char → Option (Char × List Char × List Char)
  | o :: x :: cl :: rest =>
    if isOpenParen o && isChoiceLetter x && isCloseParen cl then
      (lazyContentAfter isLetteredMarkerStart rest).map (fun q => (x, q.1, q.2))
    else none
  | _ => none

/-- Attempt the numbered pattern at the head of the text, producing the
captured digit run, the content group, and the unscanned remainder. -/
def tryNumberedMatch (l : List Char) : Option (List Char × List Char × List Char) :=
  let ds := l.takeWhile Char.isDigit
  if ds.isEmpty then none
  else
    match l.drop ds.length with
    | p :: rest =>
      if p == '.' || p == ')' then
        (lazyContentAfter isNumberedMarkerStart rest).map (fun q => (ds, q.1, q.2))
      else none
    | [] => none

/-- Scanner for the lettered findall: try a match at every position from
left to right, resuming after the content of each match.  The fuel equals
the text length; every step consumes at least one character, so the fuel
never runs out on the initial call. -/
def letteredScanAux : Nat → List Char → List (Char × List Char)
  | 0, _ => []
  | _ + 1, [] => []
  | fuel + 1, c :: rest =>
    match tryLetteredMatch (c :: rest) with
    | some (x, content, remaining) => (x, content) :: letteredScanAux fuel remaining
    | none => letteredScanAux fuel rest

def letteredMatches (text : List Char) : List (Char × List Char) :=
  letteredScanAux text.length text

/-- Scanner for the numbered findall, with the same fuel discipline. -/
def numberedScanAux : Nat → List Char → List (List Char × List Char)
  | 0, _ => []
  | _ + 1, [] => []
  | fuel + 1, c :: rest =>
    match tryNumberedMatch (c :: rest) with
    | some (ds, content, remaining) => (ds, content) :: numberedScanAux fuel remaining
    | none => numberedScanAux fuel rest

def numberedMatches (text : List Char) : List (List Char × List Char) :=
  numberedScanAux text.length text

/-- Model of the argument-free Python `str.strip`: remove whitespace from
both ends. -/
def pyStripWs (l : List Char) : List Char :=
  ((l.dropWhile isPySpace).reverse.dropWhile isPySpace).reverse

/-- Model of `_extract_answer_choices`: lettered matches first; the
numbered pattern is consulted only when the lettered list is empty; each
captured content group is stripped of surrounding whitespace. -/
def _extract_answer_choices (text : List Char) : List (List Char) :=
  let lettered := letteredMatches text
  if lettered.isEmpty then (numberedMatches text).map (fun m => pyStripWs m.2)
  else lettered.map (fun m => pyStripWs m.2)

/-- Claim C4: answer-choice extraction tries the lettered pattern first
and applies the numbered pattern only when the lettered pattern produced
no matches; on the text of the form open-paren A close-paren one and so
on through C three, it returns exactly the three contents in order. -/
theorem C4_answer_choices_lettered_first :
    (∀ text : List Char, letteredMatches text ≠ [] →
      _extract_answer_choices text
        = (letteredMatches text).map (fun m => pyStripWs m.2)) ∧
    (∀ text : List Char, letteredMatches text = [] →
      _extract_answer_choices text
        = (numberedMatches text).map (fun m => pyStripWs m.2)) ∧
    _extract_answer_choices "(A) one (B) two (C) three".data
      = [ "one".data, "two".data, "three".data] := by
  refine ⟨?_, ?_, by decide⟩
  · intro text h
    unfold _extract_answer_choices
    rw [if_neg (by simpa [List.isEmpty_iff] using h)]
  · intro text h
    unfold _extract_answer_choices
    rw [if_pos (by simp [List.isEmpty_iff, h])]

/-- Witness for C4: a text containing both a lettered and a numbered
marker has a nonempty lettered match list, and extraction follows the
lettered matches. -/
theorem C4_answer_choices_lettered_first_witness :
    letteredMatches "(A) x 1) y".data ≠ [] ∧
    _extract_answer_choices "(A) x 1) y".data
      = (letteredMatches "(A) x 1) y".data).map (fun m => pyStripWs m.2) :=
  ⟨by decide, C4_answer_choices_lettered_first.1 _ (by decide)⟩

/-! ## Model of `_determine_question_type` (source lines 852 to 888) -/

/-- Does the first list start with the second list. -/
def startsWithList : List Char → List Char → Bool
  | _, [] => true
  | [], _ :: _ => false
  | h :: hs, p :: ps => h == p && startsWithList hs ps

/-- Model of the Python substring test `pat in hay`. -/
def containsSub : List Char → List Char → Bool
  | [], pat => pat.isEmpty
  | hay@(_ :: rest), pat => startsWithList hay pat || containsSub rest pat

/-- Model of `_determine_question_type`: the ordered chain of content
rules of the source, over the lowercased question text.  The nested
conditional of the Problem Solving branch falls through to the verbal
checks when its inner guard fails, which the flattened conjunction
reproduces. -/
def _determine_question_type (question_text : List Char)
    (answer_choices : List (List Char)) : String :=
  let text_lower := question_text.map asciiLowerChar
  if containsSub text_lower "quantity a".data &&
      containsSub text_lower "quantity b".data then
    "Quantitative Comparison (QCQ)"
  else if containsSub text_lower "select all".data ||
      containsSub text_lower "select one or more".data ||
      containsSub text_lower "mark all".data then
    "Multiple Answer Choices (MAC)"
  else if 5 < answer_choices.length then
    "Multiple Answer Choices (MAC)"
  else if answer_choices.isEmpty &&
      (containsSub text_lower "enter".data ||
       containsSub text_lower "numeric".data ||
       containsSub text_lower "your answer".data) then
    "Numeric Entry (NE)"
  else if !answer_choices.isEmpty && answer_choices.length ≤ 5 &&
      !containsSub text_lower "select all".data &&
      !containsSub text_lower "select one or more".data then
    "Problem Solving (PS)"
  else if containsSub text_lower "blank".data ||
      containsSub text_lower "complete".data then
    "Text Completion"
  else if containsSub text_lower "sentence".data &&
      containsSub text_lower "equivalence".data then
    "Sentence Equivalence"
  else if containsSub text_lower "passage".data ||
      containsSub text_lower "according to the passage".data then
    "Reading Comprehension"
  else if !answer_choices.isEmpty then
    "Problem Solving (PS)"
  else
    "Unknown"

/-- Claim C5: whenever the lowercased question text contains both
quantity a and quantity b, which is exactly the case-insensitive
containment test of the source, classification returns the comparison
type, regardless of the surrounding text and of the answer choices. -/
theorem C5_quantity_comparison (question_text : List Char)
    (answer_choices : List (List Char))
    (ha : containsSub (question_text.map asciiLowerChar) "quantity a".data = true)
    (hb : containsSub (question_text.map asciiLowerChar) "quantity b".data = true) :
    _determine_question_type question_text answer_choices
      = "Quantitative Comparison (QCQ)" := by
  unfold _determine_question_type
  simp only [ha, hb, Bool.and_self, if_true]

/-- Witness for C5: a text with extraneous surroundings and mixed casing
classifies as the comparison type even with a nonempty choice list. -/
theorem C5_quantity_comparison_witness :
    containsSub ("xx QUANTITY a yy Quantity B zz".data.map asciiLowerChar)
        "quantity a".data = true ∧
    _determine_question_type "xx QUANTITY a yy Quantity B zz".data
        [ "one".data ] = "Quantitative Comparison (QCQ)" :=
  ⟨by decide, C5_quantity_comparison _ _ (by decide) (by decide)⟩

/-! ## Model of the link-harvest append (source lines 453 to 459 and 512 to 518)

Both append sites of `_extract_questions_from_div` guard the append with
the same membership test on the normalized url of the bucket entries. -/

/-- A harvested Link Record: normalized url, display text, question-type
marker and section, exactly the fields appended by the source. -/
structure LinkRecord where
  url : String
  text : String
  question_type : String
  sectionName : String
deriving DecidableEq

/-- Model of the guarded append: the record is appended only when no
record of the bucket already carries the same url. -/
def addLink (bucket : List LinkRecord) (r : LinkRecord) : List LinkRecord :=
  if bucket.any (fun q => q.url == r.url) then bucket
  else bucket ++ [r]

theorem addLink_mem_eq (b : List LinkRecord) (r : LinkRecord)
    (h : r.url ∈ b.map LinkRecord.url) : addLink b r = b := by
  unfold addLink
  rw [if_pos]
  rw [List.any_eq_true]
  rw [List.mem_map] at h
  obtain ⟨q, hq, hu⟩ := h
  exact ⟨q, hq, by simp [hu]⟩

theorem addLink_nodup (b : List LinkRecord) (r : LinkRecord)
    (h : (b.map LinkRecord.url).Nodup) :
    ((addLink b r).map LinkRecord.url).Nodup := by
  unfold addLink
  by_cases ha : b.any (fun q => q.url == r.url) = true
  · rw [if_pos ha]; exact h
  · rw [if_neg ha]
    rw [List.map_append]
    rw [List.nodup_append]
    refine ⟨h, by simp, ?_⟩
    intro x hx hx2
    simp only [List.map_cons, List.map_nil, List.mem_singleton] at hx2
    subst hx2
    apply ha
    rw [List.any_eq_true]
    rw [List.mem_map] at hx
    obtain ⟨q, hq, hu⟩ := hx
    exact ⟨q, hq, by simp [hu]⟩

theorem foldl_addLink_nodup (rs : List LinkRecord) :
    ∀ b : List LinkRecord, (b.map LinkRecord.url).Nodup →
      ((rs.foldl addLink b).map LinkRecord.url).Nodup := by
  induction rs with
  | nil => intro b h; exact h
  | cons r rest ih =>
    intro b h
    exact ih (addLink b r) (addLink_nodup b r h)

/-- Claim C6: within one bucket, encountering an already collected url
never appends a second record, appending preserves uniqueness of urls,
and every bucket built from the empty bucket by the guarded append has
pairwise distinct urls. -/
theorem C6_bucket_urls_unique :
    (∀ (b : List LinkRecord) (r : LinkRecord),
      r.url ∈ b.map LinkRecord.url → addLink b r = b) ∧
    (∀ (b : List LinkRecord) (r : LinkRecord),
      (b.map LinkRecord.url).Nodup → ((addLink b r).map LinkRecord.url).Nodup) ∧
    (∀ rs : List LinkRecord, ((rs.foldl addLink []).map LinkRecord.url).Nodup) :=
  ⟨addLink_mem_eq, addLink_nodup,
    fun rs => foldl_addLink_nodup rs [] (by simp)⟩

/-- Witness for C6: a bucket holding a url is unchanged when the same url
arrives again with different display text. -/
theorem C6_bucket_urls_unique_witness :
    ("u1" : String) ∈
      ([⟨"u1", "first", "", ""⟩] : List LinkRecord).map LinkRecord.url ∧
    addLink [⟨"u1", "first", "", ""⟩] ⟨"u1", "second", "qt", "sec"⟩
      = [⟨"u1", "first", "", ""⟩] :=
  ⟨by decide, C6_bucket_urls_unique.1 _ _ (by decide)⟩

/-! ## Model of `extract_question_content` (source lines 666 to 749)

The function builds a Python dict with six fixed keys, fills it from the
selected content region when one is found, otherwise from the body-text
fallback, and returns it; `None` is returned only when the fetch fails.
The DOM strategy chain that selects the content region and the purely
DOM-dependent sub-extractions (question text, correct answer,
explanation) are abstracted as fields of the page model; the text-level
sub-extractions (answer choices, question type) are the concrete models
above. -/

inductive JValue where
  | s (v : String)
  | arr (v : List String)
deriving DecidableEq

/-- Python dict modelled as an ordered association list: updating an
existing key keeps its position, a new key is appended at the end. -/
def dictSet (d : List (String × JValue)) (k : String) (v : JValue) :
    List (String × JValue) :=
  if d.any (fun p => p.1 == k) then d.map (fun p => if p.1 == k then (k, v) else p)
  else d ++ [(k, v)]

def dictKeys (d : List (String × JValue)) : List String := d.map Prod.fst

/-- The content region selected by the strategy chain of the source,
with its DOM-dependent sub-extraction results abstracted: the question
text produced by `_extract_question_text`, the raw element text handed
to `_extract_answer_choices`, and the page-level correct answer and
explanation. -/
structure PostRegion where
  questionText : List Char
  rawText : List Char
  correctAnswer : String
  explanation : String

/-- The parsed page: the outcome of the content-region strategy chain
and of the body-text fallback searches. -/
structure Soup where
  firstPost : Option PostRegion
  bodyText : Option (List Char)
  mainContentText : Option (List Char)

/-- Model of `extract_question_content`.  The `fetched` argument is the
fetch result: `none` models a failed `fetch_page`. -/
def extract_question_content (normalized_url : String) (fetched : Option Soup) :
    Option (List (String × JValue)) :=
  match fetched with
  | none => none
  | some soup =>
    let base : List (String × JValue) :=
      [("question", .s ""), ("answer_choices", .arr []), ("correct_answer", .s ""),
       ("explanation", .s ""), ("question_type", .s ""),
       ("source_url", .s normalized_url)]
    match soup.firstPost with
    | some fp =>
      let question_text := fp.questionText
      let answer_choices := _extract_answer_choices fp.rawText
      let d1 := dictSet base "question" (.s (String.mk question_text))
      let d2 := dictSet d1 "answer_choices" (.arr (answer_choices.map String.mk))
      let d3 := dictSet d2 "correct_answer" (.s fp.correctAnswer)
      let d4 := dictSet d3 "explanation" (.s fp.explanation)
      some (dictSet d4 "question_type"
        (.s (_determine_question_type question_text answer_choices)))
    | none =>
      match soup.bodyText with
      | some bt =>
        match soup.mainContentText with
        | some mc => some (dictSet base "question" (.s (String.mk (mc.take 2000))))
        | none => some (dictSet base "question" (.s (String.mk (bt.take 2000))))
      | none => some base

/-! ## Model of the record finalization in `main` (source lines 993 to 1025) -/

/-- The question-type folder selection of `main` for the Quantitative
Section. -/
def questionTypeFolder (question_type : String) : String :=
  if containsSub question_type.data "Quantitative Comparison".data ||
      question_type == "QCQ" then "Quantitative Comparison (QCQ)"
  else if containsSub question_type.data "Multiple Answer Choices".data ||
      question_type == "MAC" then "Multiple Answer Choices (MAC)"
  else if containsSub question_type.data "Numeric Entry".data ||
      question_type == "NE" then "Numeric Entry (NE)"
  else if containsSub question_type.data "Data Interpretation".data ||
      question_type == "DI" then "Data Interpretation (DI)"
  else "Problem Solving (PS)"

/-- Model of the field assignments `main` performs on the extracted
record before saving: `main_category` always; for the Quantitative
Section additionally `subsection`, the folder-level `question_type`,
`category` and `detected_type`; for every other main category only
`category` and the detected `question_type`. -/
def finalizeRecord (main_cat subcat detected_question_type : String)
    (qd : List (String × JValue)) : List (String × JValue) :=
  let qd1 := dictSet qd "main_category" (.s main_cat)
  if main_cat == "Quantitative Section" then
    let subsection := subcat
    let question_type :=
      if detected_question_type == "" then "Problem Solving (PS)"
      else detected_question_type
    let question_type_folder := questionTypeFolder question_type
    let final_category := subsection ++ " > " ++ question_type_folder
    let a := dictSet qd1 "subsection" (.s subsection)
    let b := dictSet a "question_type" (.s question_type_folder)
    let c := dictSet b "category" (.s final_category)
    dictSet c "detected_type" (.s detected_question_type)
  else
    let a := dictSet qd1 "category" (.s subcat)
    dictSet a "question_type" (.s detected_question_type)

theorem dictKeys_dictSet (d : List (String × JValue)) (k : String) (v : JValue) :
    dictKeys (dictSet d k v)
      = if k ∈ dictKeys d then dictKeys d else dictKeys d ++ [k] := by
  unfold dictSet dictKeys
  by_cases ha : d.any (fun p => p.1 == k) = true
  · rw [if_pos ha, if_pos]
    · rw [List.map_map]
      apply List.map_congr_left
      intro p hp
      simp only [Function.comp]
      by_cases hk : (p.1 == k) = true
      · rw [if_pos hk]
        exact (beq_iff_eq.mp hk).symm
      · rw [if_neg hk]
    · rw [List.any_eq_true] at ha
      obtain ⟨p, hp, he⟩ := ha
      rw [List.mem_map]
      exact ⟨p, hp, (beq_iff_eq.mp he)⟩
  · rw [if_neg ha, if_neg]
    · rw [List.map_append]
      rfl
    · intro hm
      apply ha
      rw [List.mem_map] at hm
      obtain ⟨p, hp, he⟩ := hm
      rw [List.any_eq_true]
      exact ⟨p, hp, beq_iff_eq.mpr he⟩

theorem extract_question_content_keys (url : String) (soup : Soup)
    (d : List (String × JValue))
    (h : extract_question_content url (some soup) = some d) :
    dictKeys d = ["question", "answer_choices", "correct_answer", "explanation",
      "question_type", "source_url"] := by
  unfold extract_question_content at h
  rcases soup with ⟨fp, bt, mc⟩
  rcases fp with _ | fp
  · rcases bt with _ | bt
    · simp only [Option.some.injEq] at h
      subst h
      rfl
    · rcases mc with _ | mc
      · simp only [Option.some.injEq] at h
        subst h
        rfl
      · simp only [Option.some.injEq] at h
        subst h
        rfl
  · simp only [Option.some.injEq] at h
    subst h
    rfl

/-- Claim C1 counterexample: a successfully fetched page whose
well-formed content block is the two-character text Hi, far below any
minimum content-length threshold, still yields a question record rather
than the null the claim requires. -/
theorem C1_counterexample :
    extract_question_content "u"
        (some ⟨some ⟨"Hi".data, "Hi".data, "", ""⟩, none, none⟩) ≠ none ∧
    Option.bind
        (extract_question_content "u"
          (some ⟨some ⟨"Hi".data, "Hi".data, "", ""⟩, none, none⟩))
        (List.lookup "question")
      = some (JValue.s "Hi") := by
  exact ⟨by decide, by decide⟩

/-- Claim C1 amended: `extract_question_content` returns null exactly
when the fetch fails; a successful fetch always yields a record, with no
minimum-length or boilerplate rejection anywhere. -/
theorem C1_extract_null_only_on_fetch_failure (url : String) (soup : Soup) :
    extract_question_content url (some soup) ≠ none ∧
    extract_question_content url none = none := by
  refine ⟨?_, rfl⟩
  unfold extract_question_content
  rcases soup with ⟨fp, bt, mc⟩
  rcases fp with _ | fp
  · rcases bt with _ | bt
    · simp
    · rcases mc with _ | mc <;> simp
  · simp

/-- Claim C2 counterexample: a record saved for a Quantitative Section
question carries a subsection field, which is not among the eight fields
the claim allows, so the claimed field set is wrong for that main
category. -/
theorem C2_counterexample :
    Option.map
        (fun d => (dictKeys (finalizeRecord "Quantitative Section" "Percents" "" d)).contains
          "subsection")
        (extract_question_content "u"
          (some ⟨some ⟨"Hi".data, "Hi".data, "", ""⟩, none, none⟩))
      = some true ∧
    (["question", "answer_choices", "correct_answer", "explanation", "question_type",
      "category", "main_category", "source_url"].contains "subsection") = false :=
  ⟨by decide, by decide⟩

/-- Claim C2 amended: every record built by the pipeline has the six
extractor fields plus main_category and category; records of the
Quantitative Section additionally carry subsection and detected_type,
ten fields in all, while records of every other main category have
exactly the eight claimed fields. -/
theorem C2_record_fields (url : String) (soup : Soup) (mc sc dt : String)
    (d : List (String × JValue))
    (h : extract_question_content url (some soup) = some d) :
    dictKeys (finalizeRecord mc sc dt d)
      = if mc == "Quantitative Section" then
          ["question", "answer_choices", "correct_answer", "explanation",
           "question_type", "source_url", "main_category", "subsection",
           "category", "detected_type"]
        else
          ["question", "answer_choices", "correct_answer", "explanation",
           "question_type", "source_url", "main_category", "category"] := by
  have hd := extract_question_content_keys url soup d h
  simp only [finalizeRecord]
  by_cases hmc : (mc == "Quantitative Section") = true
  · rw [if_pos hmc, if_pos hmc]
    rw [dictKeys_dictSet, dictKeys_dictSet, dictKeys_dictSet, dictKeys_dictSet,
      dictKeys_dictSet, hd]
    decide
  · rw [if_neg hmc, if_neg hmc]
    rw [dictKeys_dictSet, dictKeys_dictSet, dictKeys_dictSet, hd]
    decide

/-- Witness for C2: the concrete extracted record of a two-character
page finalized for a non-quantitative category has exactly the eight
claimed fields. -/
theorem C2_record_fields_witness :
    extract_question_content "u"
        (some ⟨some ⟨"Hi".data, "Hi".data, "", ""⟩, none, none⟩)
      = some [("question", JValue.s "Hi"), ("answer_choices", JValue.arr []),
          ("correct_answer", JValue.s ""), ("explanation", JValue.s ""),
          ("question_type", JValue.s "Unknown"), ("source_url", JValue.s "u")] ∧
    dictKeys (finalizeRecord "Verbal Diagnostic Test" "Text Completion (TC)" "Unknown"
        [("question", JValue.s "Hi"), ("answer_choices", JValue.arr []),
         ("correct_answer", JValue.s ""), ("explanation", JValue.s ""),
         ("question_type", JValue.s "Unknown"), ("source_url", JValue.s "u")])
      = ["question", "answer_choices", "correct_answer", "explanation",
         "question_type", "source_url", "main_category", "category"] := by
  refine ⟨by decide, ?_⟩
  have h := C2_record_fields "u" ⟨some ⟨"Hi".data, "Hi".data, "", ""⟩, none, none⟩
    "Verbal Diagnostic Test" "Text Completion (TC)" "Unknown"
    [("question", JValue.s "Hi"), ("answer_choices", JValue.arr []),
     ("correct_answer", JValue.s ""), ("explanation", JValue.s ""),
     ("question_type", JValue.s "Unknown"), ("source_url", JValue.s "u")]
    (by decide)
  rw [h]
  decide

/-! ## Model of `save_question` (source lines 908 to 925)

The function sanitizes the seed into a file name, then walks candidate
names base.json, base_1.json, base_2.json and so on until one does not
exist, and writes there.  The directory is modelled as the list of file
names it holds. -/

/-- Little-endian base-10 digits, with explicit fuel equal to the number
itself, which suffices because the argument shrinks by a factor of ten
every step. -/
def natDigitsAux : Nat → Nat → List Nat
  | 0, _ => []
  | fuel + 1, n => if n = 0 then [] else n % 10 :: natDigitsAux fuel (n / 10)

def natDigits (n : Nat) : List Nat := natDigitsAux n n

/-- Recombination of little-endian base-10 digits. -/
def unDigits : List Nat → Nat
  | [] => 0
  | d :: ds => d + 10 * unDigits ds

/-- Model of the Python decimal rendering `str(n)` used for collision
suffixes: most-significant digit first. -/
def natToString (n : Nat) : List Char :=
  (natDigits n).map (fun d => Char.ofNat (48 + d)) |>.reverse

/-- The candidate path of the collision loop: the sanitized name with
the json extension for the first attempt, then the names carrying an
underscore and the decimal suffix. -/
def candidate (filename : List Char) : Nat → List Char
  | 0 => filename ++ ['.', 'j', 's', 'o', 'n']
  | k + 1 => filename ++ '_' :: (natToString (k + 1) ++ ['.', 'j', 's', 'o', 'n'])

/-- The while loop of `save_question`: starting at suffix index k,
return the first candidate absent from the directory.  The fuel bounds
the iterations; one more than the directory size always suffices. -/
def resolveLoop (existing : List (List Char)) (filename : List Char) :
    Nat → Nat → List Char
  | 0, k => candidate filename k
  | fuel + 1, k =>
    if candidate filename k ∈ existing then resolveLoop existing filename fuel (k + 1)
    else candidate filename k

/-- Model of `save_question` restricted to its path computation: the
returned value is the path the source writes the JSON file to. -/
def save_question (existing : List (List Char)) (base_filename : String) : List Char :=
  resolveLoop existing (sanitize_filename base_filename).data (existing.length + 1) 0

theorem natDigitsAux_lt_ten :
    ∀ (fuel n d : Nat), d ∈ natDigitsAux fuel n → d < 10 := by
  intro fuel
  induction fuel with
  | zero => intro n d h; simp [natDigitsAux] at h
  | succ fuel ih =>
    intro n d h
    unfold natDigitsAux at h
    by_cases hn : n = 0
    · rw [if_pos hn] at h; simp at h
    · rw [if_neg hn] at h
      rcases List.mem_cons.mp h with h1 | h1
      · subst h1; exact Nat.mod_lt _ (by omega)
      · exact ih _ _ h1

theorem unDigits_natDigitsAux :
    ∀ (fuel n : Nat), n ≤ fuel → unDigits (natDigitsAux fuel n) = n := by
  intro fuel
  induction fuel with
  | zero => intro n h; interval_cases n; rfl
  | succ fuel ih =>
    intro n h
    unfold natDigitsAux
    by_cases hn : n = 0
    · rw [if_pos hn, hn]; rfl
    · rw [if_neg hn]
      unfold unDigits
      have hdiv : n / 10 ≤ fuel := by
        have h1 : n / 10 < n := Nat.div_lt_self (by omega) (by omega)
        omega
      rw [ih _ hdiv]
      omega

theorem unDigits_natDigits (n : Nat) : unDigits (natDigits n) = n :=
  unDigits_natDigitsAux n n (Nat.le_refl n)

theorem digitChar_inj {a b : Nat} (ha : a < 10) (hb : b < 10)
    (h : Char.ofNat (48 + a) = Char.ofNat (48 + b)) : a = b := by
  have h2 := congrArg Char.toNat h
  rw [char_toNat_ofNat_valid _ (by omega), char_toNat_ofNat_valid _ (by omega)] at h2
  omega

theorem map_digitChar_inj :
    ∀ (l₁ l₂ : List Nat), (∀ d ∈ l₁, d < 10) → (∀ d ∈ l₂, d < 10) →
      l₁.map (fun d => Char.ofNat (48 + d)) = l₂.map (fun d => Char.ofNat (48 + d)) →
      l₁ = l₂ := by
  intro l₁
  induction l₁ with
  | nil => intro l₂ _ _ h; cases l₂ with
    | nil => rfl
    | cons b bs => simp at h
  | cons a as ih =>
    intro l₂ h1 h2 h
    cases l₂ with
    | nil => simp at h
    | cons b bs =>
      simp only [List.map_cons, List.cons.injEq] at h
      have ha := h1 a (List.mem_cons_self _ _)
      have hb := h2 b (List.mem_cons_self _ _)
      rw [digitChar_inj ha hb h.1,
        ih bs (fun d hd => h1 d (List.mem_cons_of_mem _ hd))
          (fun d hd => h2 d (List.mem_cons_of_mem _ hd)) h.2]

theorem natToString_inj {m n : Nat} (h : natToString m = natToString n) : m = n := by
  unfold natToString at h
  have h2 := congrArg List.reverse h
  rw [List.reverse_reverse, List.reverse_reverse] at h2
  have h3 := map_digitChar_inj _ _
    (fun d hd => natDigitsAux_lt_ten _ _ _ hd)
    (fun d hd => natDigitsAux_lt_ten _ _ _ hd) h2
  have h4 := congrArg unDigits h3
  have h5 := unDigits_natDigits m
  have h6 := unDigits_natDigits n
  unfold natDigits at h5 h6
  omega

theorem candidate_inj (f : List Char) {i j : Nat}
    (h : candidate f i = candidate f j) : i = j := by
  match i, j with
  | 0, 0 => rfl
  | 0, j + 1 =>
    exfalso
    simp only [candidate] at h
    have h2 := List.append_cancel_left h
    injection h2 with h3 h4
    exact absurd h3 (by decide)
  | i + 1, 0 =>
    exfalso
    simp only [candidate] at h
    have h2 := List.append_cancel_left h
    injection h2 with h3 h4
    exact absurd h3 (by decide)
  | i + 1, j + 1 =>
    simp only [candidate] at h
    have h2 := List.append_cancel_left h
    injection h2 with h3 h4
    have h5 := List.append_cancel_right h4
    rw [natToString_inj h5]

theorem exists_fresh_candidate (existing : List (List Char)) (f : List Char) :
    ∃ k, k ≤ existing.length ∧ candidate f k ∉ existing := by
  by_contra hc
  push_neg at hc
  have hmaps : ∀ a ∈ Finset.range (existing.length + 1),
      candidate f a ∈ existing.toFinset := by
    intro a ha
    rw [List.mem_toFinset]
    exact hc a (Nat.lt_succ_iff.mp (Finset.mem_range.mp ha))
  have hinj : Set.InjOn (candidate f) ↑(Finset.range (existing.length + 1)) :=
    fun a _ b _ h => candidate_inj f h
  have hcard := Finset.card_le_card_of_injOn (candidate f) hmaps hinj
  rw [Finset.card_range] at hcard
  have hle := List.toFinset_card_le (l := existing)
  omega

theorem resolveLoop_spec (existing : List (List Char)) (f : List Char) :
    ∀ (fuel k : Nat), (∃ j, j < fuel ∧ candidate f (k + j) ∉ existing) →
      resolveLoop existing f fuel k ∉ existing ∧
      ∃ j, resolveLoop existing f fuel k = candidate f (k + j) ∧
        ∀ i < j, candidate f (k + i) ∈ existing := by
  intro fuel
  induction fuel with
  | zero =>
    intro k ⟨j, hj, _⟩
    omega
  | succ fuel ih =>
    intro k ⟨j, hj, hfree⟩
    unfold resolveLoop
    by_cases hk : candidate f k ∈ existing
    · rw [if_pos hk]
      have hj0 : j ≠ 0 := by
        intro he
        subst he
        simp only [Nat.add_zero] at hfree
        exact hfree hk
      obtain ⟨hni, j2, heq, hall⟩ :=
        ih (k + 1) ⟨j - 1, by omega, by
          have : k + 1 + (j - 1) = k + j := by omega
          rw [this]
          exact hfree⟩
      refine ⟨hni, j2 + 1, ?_, ?_⟩
      · rw [heq]
        have : k + 1 + j2 = k + (j2 + 1) := by omega
        rw [this]
      · intro i hi
        match i with
        | 0 => simpa using hk
        | i + 1 =>
          have : k + (i + 1) = k + 1 + i := by omega
          rw [this]
          exact hall i (by omega)
    · rw [if_neg hk]
      exact ⟨hk, 0, by simp, by omega⟩

/-- Claim C8: for every finite directory state the collision loop of
`save_question` reaches a candidate absent from the directory, the path
it writes to did not exist before the call, and every candidate with a
smaller suffix index was occupied, so the suffixes are tried in
increasing order until the first free name. -/
theorem C8_save_question_fresh (existing : List (List Char)) (base_filename : String) :
    save_question existing base_filename ∉ existing ∧
    ∃ k, save_question existing base_filename
        = candidate (sanitize_filename base_filename).data k ∧
      ∀ i < k, candidate (sanitize_filename base_filename).data i ∈ existing := by
  obtain ⟨k0, hk0, hfree⟩ :=
    exists_fresh_candidate existing (sanitize_filename base_filename).data
  have hspec := resolveLoop_spec existing (sanitize_filename base_filename).data
    (existing.length + 1) 0 ⟨k0, by omega, by simpa using hfree⟩
  obtain ⟨hni, j, heq, hall⟩ := hspec
  refine ⟨hni, j, by simpa using heq, ?_⟩
  intro i hi
  simpa using hall i hi

/-- Witness for C8: against a directory already holding the base name
and its first suffixed variant, the loop settles on the second suffix,
a name absent from the directory. -/
theorem C8_save_question_fresh_witness :
    save_question [ "q.json".data, "q_1.json".data ] "q" = "q_2.json".data ∧
    save_question [ "q.json".data, "q_1.json".data ] "q"
      ∉ [ "q.json".data, "q_1.json".data ] :=
  ⟨by decide, (C8_save_question_fresh [ "q.json".data, "q_1.json".data ] "q").1⟩

/-! ## Model of `fetch_page` (source lines 646 to 664)

The network is an oracle mapping each attempt index to an outcome: a
successful response, the transient status 400, or a request exception
(any transport error or bad status raised by `raise_for_status`).  A
status 400 on a non-final attempt sleeps and retries, exactly as a
request exception does; on the final attempt both paths end in the
except branch returning `None`.  The trace records the returned result,
the number of attempts made, and the sleep durations in order. -/

inductive AttemptOutcome where
  | success
  | status400
  | requestException
deriving DecidableEq

structure FetchTrace where
  result : Option Nat
  attemptsMade : Nat
  sleeps : List Nat
deriving DecidableEq

/-- The retry loop of `fetch_page`, parameterised by the number of
remaining attempts; the current attempt index is `retries` minus the
remaining count, and the backoff before a retry is two to the power of
the attempt index. -/
def fetchLoop (env : Nat → AttemptOutcome) (retries : Nat) : Nat → FetchTrace
  | 0 => ⟨none, 0, []⟩
  | r + 1 =>
    match env (retries - (r + 1)) with
    | .success => ⟨some (retries - (r + 1)), 1, []⟩
    | _ =>
      if 0 < r then
        ⟨(fetchLoop env retries r).result,
         (fetchLoop env retries r).attemptsMade + 1,
         2 ^ (retries - (r + 1)) :: (fetchLoop env retries r).sleeps⟩
      else ⟨none, 1, []⟩

/-- Model of `fetch_page` with its default retry bound of three. -/
def fetch_page (env : Nat → AttemptOutcome) (retries : Nat := 3) : FetchTrace :=
  fetchLoop env retries retries

theorem fetchLoop_succ (env : Nat → AttemptOutcome) (retries r : Nat) :
    fetchLoop env retries (r + 1) =
      if env (retries - (r + 1)) = .success then ⟨some (retries - (r + 1)), 1, []⟩
      else if 0 < r then
        ⟨(fetchLoop env retries r).result,
         (fetchLoop env retries r).attemptsMade + 1,
         2 ^ (retries - (r + 1)) :: (fetchLoop env retries r).sleeps⟩
      else ⟨none, 1, []⟩ := by
  rcases he : env (retries - (r + 1)) with _ | _ | _ <;> simp [fetchLoop, he]

theorem fetch_trace_cases (env : Nat → AttemptOutcome) :
    (env 0 = .success ∧ fetch_page env = ⟨some 0, 1, []⟩) ∨
    (env 0 ≠ .success ∧ env 1 = .success ∧ fetch_page env = ⟨some 1, 2, [1]⟩) ∨
    (env 0 ≠ .success ∧ env 1 ≠ .success ∧ env 2 = .success ∧
      fetch_page env = ⟨some 2, 3, [1, 2]⟩) ∨
    (env 0 ≠ .success ∧ env 1 ≠ .success ∧ env 2 ≠ .success ∧
      fetch_page env = ⟨none, 3, [1, 2]⟩) := by
  have e3 := fetchLoop_succ env 3 2
  have e2 := fetchLoop_succ env 3 1
  have e1 := fetchLoop_succ env 3 0
  norm_num at e3 e2 e1
  by_cases h0 : env 0 = .success
  · exact Or.inl ⟨h0, by simp [fetch_page, e3, h0]⟩
  · by_cases h1 : env 1 = .success
    · exact Or.inr (Or.inl ⟨h0, h1, by simp [fetch_page, e3, e2, h0, h1]⟩)
    · by_cases h2 : env 2 = .success
      · exact Or.inr (Or.inr (Or.inl ⟨h0, h1, h2,
          by simp [fetch_page, e3, e2, e1, h0, h1, h2]⟩))
      · exact Or.inr (Or.inr (Or.inr ⟨h0, h1, h2,
          by simp [fetch_page, e3, e2, e1, h0, h1, h2]⟩))

/-- Claim C9: `fetch_page` makes at most three attempts, its backoff
delays are the doubling sequence one then two taken as a possibly empty
initial run, and when no attempt succeeds it reports failure by an
absent result rather than an exception, the model being a total
function. -/
theorem C9_fetch_page_retries (env : Nat → AttemptOutcome) :
    (fetch_page env).attemptsMade ≤ 3 ∧
    (∃ k, k ≤ 2 ∧ (fetch_page env).sleeps = (List.range k).map (fun i => 2 ^ i)) ∧
    ((∀ i, env i ≠ .success) → (fetch_page env).result = none) := by
  rcases fetch_trace_cases env with ⟨h0, he⟩ | ⟨h0, h1, he⟩ |
    ⟨h0, h1, h2, he⟩ | ⟨h0, h1, h2, he⟩ <;> rw [he]
  · exact ⟨by norm_num, ⟨0, by norm_num, by rfl⟩,
      fun hall => absurd h0 (hall 0)⟩
  · exact ⟨by norm_num, ⟨1, by norm_num, by rfl⟩,
      fun hall => absurd h1 (hall 1)⟩
  · exact ⟨by norm_num, ⟨2, by norm_num, by rfl⟩,
      fun hall => absurd h2 (hall 2)⟩
  · exact ⟨by norm_num, ⟨2, by norm_num, by rfl⟩, fun _ => rfl⟩

/-- Witness for C9: under an oracle that always raises, the fetch
reports an absent result after exactly the bounded number of attempts. -/
theorem C9_fetch_page_retries_witness :
    (fetch_page (fun _ => AttemptOutcome.requestException)).result = none ∧
    (fetch_page (fun _ => AttemptOutcome.requestException)).attemptsMade ≤ 3 :=
  ⟨(C9_fetch_page_retries _).2.2 (fun _ => by decide),
   (C9_fetch_page_retries _).1⟩

/-! ## Model of `cleanup_old_questions` (source lines 111 to 186) and of
the abort path of `main` (source lines 959 to 970)

Question files are modelled by their path components below the output
directory: a three-component path is a json file directly inside a
subcategory folder, a four-component path is a json file inside a
question-type subfolder of a Quantitative Section subcategory.  The
`main` sequence is: cleanup first, folder creation (which touches no
files), then the page parse; an empty parse aborts the run before the
extraction loop. -/

def folder_structure : List (String × List String) :=
  [("Math Diagnostic Test",
    ["Quantitative Comparison (QCQ)", "Problem Solving (PS)",
     "Multiple Answer Choices (MAC)", "Numeric Entry (NE)",
     "Data Interpretation (DI)"]),
   ("Verbal Diagnostic Test",
    ["Text Completion (TC)", "Sentence Equivalence (SE)",
     "Reading Comprehension (RC)"]),
   ("Quantitative Section",
    ["Arithmetic", "Exponents and Roots", "Linear and Quadratic Equations",
     "Functions, Formulas, and Sequences", "Inequalities and Absolute Values",
     "Divisibility and Primes", "Number Properties", "Fractions and Decimals",
     "Percents", "Ratios", "Word Problems", "Two Variables Word Problems",
     "Averages, Weighted Averages, Median, and Mode",
     "Standard Deviation and Normal Distribution", "Data Interpretation",
     "Triangles", "Polygons and Rectangular Solids", "Circles and Cylinders",
     "Coordinate Geometry", "Mixed Geometry", "Rates and Work",
     "Probability, Combinatorics, and Overlapping Sets", "Advanced Quant",
     "Quant Practice Sections", "Quant Practice Adaptive Sections"]),
   ("Verbal Section",
    ["Text Completion", "Sentence Equivalence", "Reading Comprehension",
     "Passage Paragraph Argument", "Verbal Practice Sections",
     "Verbal Practice Adaptive Sections"])]

def quant_question_types : List String :=
  ["Quantitative Comparison (QCQ)", "Problem Solving (PS)",
   "Multiple Answer Choices (MAC)", "Numeric Entry (NE)",
   "Data Interpretation (DI)"]

/-- An absent target selector matches everything, a present one matches
its own value, as in the should-clean helper of the source. -/
def optMatches (t : Option String) (x : String) : Bool :=
  match t with
  | none => true
  | some v => v == x

/-- Does the cleanup of one run delete the file at this path: the
remnant question-type folders directly under the Quantitative Section,
the question-type subfolders of Quantitative Section subcategories, and
the json files directly inside each targeted subcategory folder. -/
def cleanupDeletes (tm ts : Option String) (p : List String) : Bool :=
  match p with
  | [m, s, _] =>
    (optMatches tm "Quantitative Section" && m == "Quantitative Section" &&
      quant_question_types.contains s) ||
    (optMatches tm m && optMatches ts s &&
      folder_structure.any (fun q => q.1 == m && q.2.contains s))
  | [m, s, qt, _] =>
    m == "Quantitative Section" && optMatches tm m && optMatches ts s &&
    folder_structure.any (fun q => q.1 == m && q.2.contains s) &&
    quant_question_types.contains qt
  | _ => false

/-- Model of `cleanup_old_questions`: remove every question file the
target selection covers, keep the rest. -/
def cleanup_old_questions (tm ts : Option String) (files : List (List String)) :
    List (List String) :=
  files.filter (fun p => !cleanupDeletes tm ts p)

structure MainResult where
  files : List (List String)
  savedQuestions : Nat
  aborted : Bool
deriving DecidableEq

/-- Model of the file effects of `main`: cleanup runs first, folder
creation adds no files, and when the page parse yields no categories the
run reports an error and returns before extracting anything; a nonempty
parse hands the cleaned state to the extraction loop, abstracted here as
the savePhase argument because no claim depends on it. -/
def mainRun (tm ts : Option String) (parseEmpty : Bool)
    (savePhase : List (List String) → List (List String) × Nat)
    (files0 : List (List String)) : MainResult :=
  let files1 := cleanup_old_questions tm ts files0
  if parseEmpty then ⟨files1, 0, true⟩
  else
    let r := savePhase files1
    ⟨r.1, r.2, false⟩

/-- Claim C3 counterexample: a run whose page parse finds no question
containers aborts, yet the question files of the output directory are
not unchanged: the cleanup step that ran before the fatal check already
deleted a pre-existing question file. -/
theorem C3_counterexample :
    (mainRun none none true (fun f => (f, 0))
        [["Quantitative Section", "Percents", "q1"]]).aborted = true ∧
    (mainRun none none true (fun f => (f, 0))
        [["Quantitative Section", "Percents", "q1"]]).savedQuestions = 0 ∧
    (mainRun none none true (fun f => (f, 0))
        [["Quantitative Section", "Percents", "q1"]]).files
      ≠ [["Quantitative Section", "Percents", "q1"]] :=
  ⟨by decide, by decide, by decide⟩

/-- Claim C3 amended: when the parse yields no categories the run aborts
with a reported error and writes no question files, but the directory is
not left unchanged: its file set is the cleanup result, a subset of the
original files with the targeted question files already deleted. -/
theorem C3_abort_after_cleanup (tm ts : Option String)
    (savePhase : List (List String) → List (List String) × Nat)
    (files0 : List (List String)) :
    (mainRun tm ts true savePhase files0).aborted = true ∧
    (mainRun tm ts true savePhase files0).savedQuestions = 0 ∧
    (mainRun tm ts true savePhase files0).files
      = cleanup_old_questions tm ts files0 ∧
    (∀ p ∈ (mainRun tm ts true savePhase files0).files, p ∈ files0) := by
  refine ⟨rfl, rfl, rfl, ?_⟩
  intro p hp
  have hp2 : p ∈ cleanup_old_questions tm ts files0 := hp
  exact List.mem_of_mem_filter hp2

/-- Witness for C3: a file outside the targeted selection survives the
cleanup of an aborting run and was already present before it. -/
theorem C3_abort_after_cleanup_witness :
    (["Verbal Section", "Text Completion", "q2"] : List String) ∈
      (mainRun (some "Quantitative Section") none true (fun f => (f, 0))
        [["Verbal Section", "Text Completion", "q2"]]).files ∧
    (["Verbal Section", "Text Completion", "q2"] : List String) ∈
      [["Verbal Section", "Text Completion", "q2"]] :=
  ⟨by decide,
   (C3_abort_after_cleanup (some "Quantitative Section") none (fun f => (f, 0))
      [["Verbal Section", "Text Completion", "q2"]]).2.2.2
     ["Verbal Section", "Text Completion", "q2"] (by decide)⟩

/-- Witness for the amended C1: a successfully fetched page with no
recognisable content region at all still produces a record, and only a
failed fetch produces the absent result. -/
theorem C1_extract_null_only_on_fetch_failure_witness :
    extract_question_content "u" (some ⟨none, none, none⟩) ≠ none ∧
    extract_question_content "u" none = none :=
  ⟨(C1_extract_null_only_on_fetch_failure "u" ⟨none, none, none⟩).1,
   (C1_extract_null_only_on_fetch_failure "u" ⟨none, none, none⟩).2⟩
